import Mathlib

/-!
Shallow embedding of `src/gptme/util.py` (the gptme utility module) and
verification of the specification claims about it.

Strings are modelled as Lean `String` / `List Char`; line breaks are `'\n'`
(the only line separator occurring in this module's data).  Machine integers
do not occur; Python ints are modelled as `Int`/`Nat`.
-/

namespace Gptme

/-! ### Vocabularies (util.py lines 31-94) -/

/-- The `actions` word list from util.py (verbatim, including the duplicated
"sneaking"). -/
def actions : List String :=
  ["running", "jumping", "walking", "skipping", "hopping", "flying",
   "swimming", "crawling", "sneaking", "sprinting", "sneaking", "dancing",
   "singing", "laughing"]

/-- The `adjectives` word list from util.py. -/
def adjectives : List String :=
  ["funny", "happy", "sad", "angry", "silly", "crazy", "sneaky", "sleepy",
   "hungry", "red", "blue", "green", "pink", "purple", "yellow", "orange"]

/-- The `nouns` word list from util.py. -/
def nouns : List String :=
  ["cat", "dog", "rat", "mouse", "fish", "elephant", "dinosaur", "bird",
   "pelican", "dragon", "unicorn", "mermaid", "monster", "alien", "robot",
   "whale", "shark", "walrus", "octopus", "squid", "jellyfish", "starfish",
   "penguin", "seal"]

/-- `all_words = actions + adjectives + nouns`, the concatenation built inside
`is_generated_name`. -/
def all_words : List String := actions ++ adjectives ++ nouns

/-- `generate_name` from util.py: `random.choice` picks one element of each
list; the randomness is modelled by quantifying over the chosen indices.
The result is `f"{action}-{adjective}-{noun}"`. -/
def generate_name (i : Fin actions.length) (j : Fin adjectives.length)
    (k : Fin nouns.length) : String :=
  actions.get i ++ "-" ++ adjectives.get j ++ "-" ++ nouns.get k

/-- Splitting a character list at every occurrence of `sep`, Python
`str.split(sep)` semantics: `splitOnChar sep []` is `[[]]`, and each
separator starts a new (possibly empty) segment. -/
def splitOnChar (sep : Char) : List Char → List (List Char)
  | [] => [[]]
  | c :: t =>
    if c = sep then [] :: splitOnChar sep t
    else
      match splitOnChar sep t with
      | [] => [[c]]
      | h :: r => (c :: h) :: r

/-- `is_generated_name` from util.py:
`name.count("-") == 2 and all(word in all_words for word in name.split("-"))`. -/
def is_generated_name (name : String) : Bool :=
  (name.data.countP (fun c => c == '-') == 2) &&
  (splitOnChar '-' name.data).all (fun w => all_words.any (fun v => v.data == w))

/-! ### epoch_to_age (util.py lines 110-122) -/

/-- Two-digit zero padding, as in `strftime` `%m` / `%d`. -/
def pad2 (n : Nat) : String := if n < 10 then "0" ++ toString n else toString n

/-- Proleptic-Gregorian civil date from a count of days since 1970-01-01
(Howard Hinnant's `civil_from_days` algorithm, used to model Python's
`datetime.fromtimestamp(...).strftime('%Y-%m-%d')`). -/
def civilFromDays (z0 : Int) : Int × Int × Int :=
  let z := z0 + 719468
  let era := z.fdiv 146097
  let doe := z - era * 146097
  let yoe := (doe - doe.fdiv 1460 + doe.fdiv 36524 - doe.fdiv 146096).fdiv 365
  let y := yoe + era * 400
  let doy := doe - (365 * yoe + yoe.fdiv 4 - yoe.fdiv 100)
  let mp := (5 * doy + 2).fdiv 153
  let d := doy - (153 * mp + 2).fdiv 5 + 1
  let m := mp + (if mp < 10 then 3 else -9)
  (y + (if m ≤ 2 then 1 else 0), m, d)

/-- `datetime.fromtimestamp(epoch).strftime('%Y-%m-%d')`, with the process's
local timezone modelled as UTC (offset zero). -/
def dateOfEpoch (epoch : Int) : String :=
  let c := civilFromDays (epoch.fdiv 86400)
  toString c.1 ++ "-" ++ pad2 c.2.1.toNat ++ "-" ++ pad2 c.2.2.toNat

/-- `epoch_to_age` from util.py.  `age = datetime.now() - datetime.fromtimestamp(epoch)`
is a Python `timedelta`; timedelta comparison is by total duration,
`age.seconds` is the floor-normalized remainder-of-day second count
(`age mod 86400`, always in `[0, 86400)`) and `age.days` is the floor day
count.  Times are modelled at whole-second granularity: `now` and `epoch`
are second counts. -/
def epoch_to_age (now epoch : Int) : String :=
  let age := now - epoch
  if age < 60 then "just now"
  else if age < 3600 then toString ((age.emod 86400).fdiv 60) ++ " minutes ago"
  else if age < 86400 then toString ((age.emod 86400).fdiv 3600) ++ " hours ago"
  else if age < 172800 then "yesterday"
  else toString (age.fdiv 86400) ++ " days ago (" ++ dateOfEpoch epoch ++ ")"

/-! ### transform_examples_to_chat_directives (util.py lines 145-164)

The function is two `re.sub` passes around a `textwrap.indent`:

  pass 1: `re.sub(r"(^|\n)([>] )?(.+):", r"\1\3:", s)`.
  Matches are anchored at line starts; `.` excludes `'\n'`, so each match
  stays in one line, and at most one match fires per line (the next match
  needs the next `'\n'`).  The replacement differs from the matched text
  exactly when the optional group `([>] )?` participated, i.e. when the line
  starts with `"> "` and the remainder matches `.+:` (a colon at index ≥ 1 of
  the remainder); the effect is then to delete the leading `"> "`.

  indent: `textwrap.indent(s, "   ")` prefixes three spaces to every line
  that contains a non-whitespace character (the default predicate
  `line.strip()`).

  pass 2: `re.sub(r"(^|\n)(   [# ]+(.+)(\n\s*)+)?   User:", r"\1\3\n\n.. chat::\n\n   User:", s)`.
  Matches anchor at position 0 or at a `'\n'`.  The optional "heading" group
  is tried first (greedy `?`): three literal spaces, a nonempty run of
  `'#'`/`' '`, a nonempty `(.+)` which—being followed by `(\n\s*)+`—must
  extend to the end of its line (when the whole remainder of the line is
  `'#'`/`' '` characters, backtracking leaves the last of them to `(.+)`,
  which therefore needs the run to have length ≥ 2), then `'\n'` followed by
  arbitrary whitespace and the literal `"   User:"`.  Since `'U'` is not
  whitespace, the literal can only start three characters before the first
  non-whitespace character after that `'\n'`.  Without the heading group the
  match is the literal `"   User:"` directly at the line start.  `re.sub`
  replaces every non-overlapping match, scanning left to right.
-/

/-- Python `str.strip()` whitespace (ASCII part): the characters stripped by
the `textwrap.indent` predicate and matched by `\s` in this module's use. -/
def pyspace (c : Char) : Bool :=
  c == ' ' || c == '\t' || c == '\n' || c == '\r' || c == '\x0b' || c == '\x0c'

/-- Characters matched by the `[# ]` class of pass 2. -/
def headingChar (c : Char) : Bool := c == '#' || c == ' '

/-- Split a text into its lines at `'\n'` (Python line structure for texts
whose only line separator is `'\n'`). -/
def splitNl : List Char → List (List Char) := splitOnChar '\n'

/-- Join lines back with `'\n'`; inverse of `splitNl`. -/
def joinNl : List (List Char) → List Char
  | [] => []
  | [l] => l
  | l :: l' :: ls => l ++ '\n' :: joinNl (l' :: ls)

/-- Effect of pass 1 on a single line: delete a leading `"> "` when the
remainder of the line has a colon at index ≥ 1 (the `.+:` requirement);
otherwise the line is unchanged (a match without the `([>] )?` group
reproduces its input). -/
def stripQuoteLine (l : List Char) : List Char :=
  if l.take 2 = ['>', ' '] ∧ ':' ∈ l.drop 3 then l.drop 2 else l

/-- Pass 1 of `transform_examples_to_chat_directives`:
`re.sub(r"(^|\n)([>] )?(.+):", r"\1\3:", s)`. -/
def pass1 (s : List Char) : List Char :=
  joinNl ((splitNl s).map stripQuoteLine)

/-- Effect of `textwrap.indent(s, "   ")` on a single line. -/
def indentLine (l : List Char) : List Char :=
  if l.any (fun c => !(pyspace c)) then ' ' :: ' ' :: ' ' :: l else l

/-- `textwrap.indent(s, "   ")`. -/
def indent3 (s : List Char) : List Char :=
  joinNl ((splitNl s).map indentLine)

/-- The text inserted by pass 2's replacement after the `\1\3` groups:
`"\n\n.. chat::\n\n   User:"`. -/
def chatRep : List Char := "\n\n.. chat::\n\n   User:".data

/-- Parse of the heading group's `[# ]+(.+)` at the text `rest` following the
three literal spaces: a nonempty run of `'#'`/`' '`, then a nonempty `(.+)`
extending to the end of the line (when the whole remainder of the line is the
run, backtracking leaves its last character to `(.+)`, so the run needs
length ≥ 2).  Returns the group-3 content and the number of characters of
`rest` consumed. -/
def g2Head (rest : List Char) : Option (List Char × Nat) :=
  if rest.takeWhile headingChar = [] then none
  else if (rest.drop (rest.takeWhile headingChar).length).takeWhile
      (fun c => c != '\n') = [] then
    if 2 ≤ (rest.takeWhile headingChar).length then
      some ((rest.takeWhile headingChar).drop
          ((rest.takeWhile headingChar).length - 1),
        (rest.takeWhile headingChar).length)
    else none
  else
    some ((rest.drop (rest.takeWhile headingChar).length).takeWhile
        (fun c => c != '\n'),
      (rest.takeWhile headingChar).length
        + ((rest.drop (rest.takeWhile headingChar).length).takeWhile
            (fun c => c != '\n')).length)

/-- Parse of the heading group's terminal `\s*` (after its first `(\n`) and
the literal `"   User:"`, at the text `u` following that newline: since `'U'`
is not whitespace, the literal can only start three characters before the
first non-whitespace character of `u`.  Returns the number of characters of
`u` consumed. -/
def g2Term (u : List Char) : Option Nat :=
  if 3 ≤ u.findIdx (fun c => !(pyspace c)) ∧
     u.findIdx (fun c => !(pyspace c)) < u.length ∧
     (u.drop (u.findIdx (fun c => !(pyspace c)) - 3)).take 8 = "   User:".data
  then some ((u.findIdx (fun c => !(pyspace c)) - 3) + 8)
  else none

/-- Attempt to match pass 2's optional heading group followed by the
`"   User:"` literal at a line start `t`.  On success, returns the content
of group 3 together with the total number of characters consumed. -/
def tryGroup2 (t : List Char) : Option (List Char × Nat) :=
  if t.take 3 = [' ', ' ', ' '] then
    match g2Head (t.drop 3) with
    | none => none
    | some (g3, k) =>
      match t.drop (3 + k) with
      | '\n' :: u =>
        match g2Term u with
        | some m => some (g3, 3 + k + 1 + m)
        | none => none
      | _ => none
  else none

/-- Attempt a pass-2 match at a line start `t` (position 0 via `^`, or the
position right after a `'\n'`).  Returns the replacement text for the
`\3\n\n.. chat::\n\n   User:` part of the template (group 1 is handled by
the caller) and the number of characters of `t` consumed by the match. -/
def matchAt (t : List Char) : Option (List Char × Nat) :=
  match tryGroup2 t with
  | some (g3, n) => some (g3 ++ chatRep, n)
  | none =>
    if t.take 8 = "   User:".data then some (chatRep, 8) else none

/-- Fuel-indexed scanner for pass 2: walks the text, and at each `'\n'`
attempts a match at the following position, emitting the replacement and
resuming after the matched text (the `re.sub` left-to-right non-overlapping
discipline).  The fuel (always instantiated to the text length) makes the
recursion structural. -/
def scanF : Nat → List Char → List Char
  | 0, t => t
  | _ + 1, [] => []
  | f + 1, c :: t =>
    if c = '\n' then
      match matchAt t with
      | some (rep, n) => c :: (rep ++ scanF f (t.drop n))
      | none => c :: scanF f t
    else c :: scanF f t

/-- Pass-2 scanning from a non-anchor position. -/
def scan (t : List Char) : List Char := scanF t.length t

/-- Pass 2 of `transform_examples_to_chat_directives`:
`re.sub(r"(^|\n)(   [# ]+(.+)(\n\s*)+)?   User:", r"\1\3\n\n.. chat::\n\n   User:", s)`.
The `^` alternative is tried at position 0; all later matches start at a
`'\n'` and are found by `scan`. -/
def pass2 (s : List Char) : List Char :=
  match matchAt s with
  | some (rep, n) => rep ++ scan (s.drop n)
  | none => scan s

/-- The two assertion failures of `transform_examples_to_chat_directives`:
`"Couldn't find a message"` and
`"Couldn't find place to put start of directive"`. -/
inductive TransformError where
  | NoMessageFound
  | NoDirectivePlacementFound
deriving DecidableEq, Repr

/-- `transform_examples_to_chat_directives(s, strict)` from util.py: pass 1,
strict check that it changed something, indentation, pass 2, strict check
that it changed something. -/
def transform_examples_to_chat_directives (s : List Char) (strict : Bool) :
    Except TransformError (List Char) :=
  if strict = true ∧ pass1 s = s then .error .NoMessageFound
  else if strict = true ∧ pass2 (indent3 (pass1 s)) = indent3 (pass1 s) then
    .error .NoDirectivePlacementFound
  else .ok (pass2 (indent3 (pass1 s)))

/-- Number of positions at which `pat` occurs as a contiguous substring. -/
def countOccs (pat : List Char) : List Char → Nat
  | [] => 0
  | c :: t => (if (c :: t).take pat.length = pat then 1 else 0) + countOccs pat t

/-! ### Lemmas about `splitOnChar` and vocabulary facts -/

theorem splitOnChar_ne_nil (sep : Char) (l : List Char) :
    splitOnChar sep l ≠ [] := by
  induction l with
  | nil => simp [splitOnChar]
  | cons c t ih =>
    simp only [splitOnChar]
    split
    · simp
    · cases h : splitOnChar sep t with
      | nil => exact absurd h ih
      | cons a r => simp [h]

theorem splitOnChar_no_sep (sep : Char) (l : List Char) (h : sep ∉ l) :
    splitOnChar sep l = [l] := by
  induction l with
  | nil => rfl
  | cons c t ih =>
    simp only [List.mem_cons, not_or] at h
    have hcne : ¬(c = sep) := fun hc => h.1 hc.symm
    simp only [splitOnChar, if_neg hcne, ih h.2]

theorem splitOnChar_append_sep (sep : Char) (x y : List Char) (hx : sep ∉ x) :
    splitOnChar sep (x ++ sep :: y) = x :: splitOnChar sep y := by
  induction x with
  | nil => simp [splitOnChar]
  | cons c t ih =>
    simp only [List.mem_cons, not_or] at hx
    have hcne : ¬(c = sep) := fun hc => hx.1 hc.symm
    simp only [List.cons_append, splitOnChar, if_neg hcne]
    rw [show t.append (sep :: y) = t ++ sep :: y from rfl, ih hx.2]

theorem length_splitOnChar (sep : Char) (l : List Char) :
    (splitOnChar sep l).length = l.countP (fun c => c == sep) + 1 := by
  induction l with
  | nil => simp [splitOnChar]
  | cons c t ih =>
    simp only [splitOnChar, List.countP_cons]
    split
    · next h => simp [h, ih]
    · next h =>
      have hb : (c == sep) = false := by simp [h]
      cases hs : splitOnChar sep t with
      | nil => exact absurd hs (splitOnChar_ne_nil sep t)
      | cons a r => simp [hs, hb] at ih ⊢; omega

theorem vocab_no_dash : ∀ v ∈ all_words, '-' ∉ v.data := by decide

theorem str_data_append (a b : String) : (a ++ b).data = a.data ++ b.data := by
  cases a; cases b; rfl

/-- Membership in any of the three vocabularies gives membership in
`all_words`. -/
theorem mem_all_words {w : String}
    (h : w ∈ actions ∨ w ∈ adjectives ∨ w ∈ nouns) : w ∈ all_words := by
  simp only [all_words, List.mem_append]
  tauto

/-- Recognition of any hyphen-joined triple of vocabulary words, in whatever
order the three words are drawn from the vocabularies. -/
theorem is_generated_name_join (a b c : String)
    (ha : a ∈ all_words) (hb : b ∈ all_words) (hc : c ∈ all_words) :
    is_generated_name (a ++ "-" ++ b ++ "-" ++ c) = true := by
  have hdata : (a ++ "-" ++ b ++ "-" ++ c).data
      = a.data ++ '-' :: (b.data ++ '-' :: c.data) := by
    simp [str_data_append]
  have hna : '-' ∉ a.data := vocab_no_dash a ha
  have hnb : '-' ∉ b.data := vocab_no_dash b hb
  have hnc : '-' ∉ c.data := vocab_no_dash c hc
  have hsplit : splitOnChar '-' (a ++ "-" ++ b ++ "-" ++ c).data
      = [a.data, b.data, c.data] := by
    rw [hdata, splitOnChar_append_sep _ _ _ hna,
      splitOnChar_append_sep _ _ _ hnb, splitOnChar_no_sep _ _ hnc]
  have hcount : (a ++ "-" ++ b ++ "-" ++ c).data.countP (fun c => c == '-') = 2 := by
    have h1 : a.data.countP (fun c => c == '-') = 0 :=
      List.countP_eq_zero.2
        (by intro x hx; simp only [beq_iff_eq]; rintro rfl; exact hna hx)
    have h2 : b.data.countP (fun c => c == '-') = 0 :=
      List.countP_eq_zero.2
        (by intro x hx; simp only [beq_iff_eq]; rintro rfl; exact hnb hx)
    have h3 : c.data.countP (fun c => c == '-') = 0 :=
      List.countP_eq_zero.2
        (by intro x hx; simp only [beq_iff_eq]; rintro rfl; exact hnc hx)
    rw [hdata]
    simp [List.countP_append, List.countP_cons, h1, h2, h3]
  unfold is_generated_name
  rw [hsplit, hcount]
  simp only [Nat.reduceBEq, Bool.true_and, List.all_cons, List.all_nil,
    Bool.and_true, List.any_eq_true, Bool.and_eq_true, beq_iff_eq]
  exact ⟨⟨a, ha, rfl⟩, ⟨b, hb, rfl⟩, ⟨c, hc, rfl⟩⟩

/-- Claim C2: `is_generated_name` returns true iff the name has exactly two
`'-'` separators and each of the three resulting segments belongs to the
union of the vocabularies, with no positional check (so a noun-action-adjective
joining is still recognized), and the empty string is rejected. -/
theorem claim_C2_recognizer :
    (∀ name : String, is_generated_name name = true ↔
      (name.data.countP (fun c => c == '-') = 2 ∧
       (splitOnChar '-' name.data).length = 3 ∧
       ∀ w ∈ splitOnChar '-' name.data, ∃ v ∈ all_words, v.data = w)) ∧
    (∀ (i : Fin nouns.length) (j : Fin actions.length)
       (k : Fin adjectives.length),
      is_generated_name (nouns.get i ++ "-" ++ actions.get j ++ "-"
        ++ adjectives.get k) = true) ∧
    is_generated_name "" = false := by
  refine ⟨fun name => ?_, fun i j k => ?_, by decide⟩
  · unfold is_generated_name
    rw [Bool.and_eq_true]
    constructor
    · rintro ⟨h1, h2⟩
      have hc : name.data.countP (fun c => c == '-') = 2 := by
        simpa using h1
      refine ⟨hc, by rw [length_splitOnChar, hc], ?_⟩
      intro w hw
      have := (List.all_eq_true.1 h2) w hw
      simpa [List.any_eq_true, beq_iff_eq] using this
    · rintro ⟨h1, _, h3⟩
      refine ⟨by simpa using h1, List.all_eq_true.2 fun w hw => ?_⟩
      simpa [List.any_eq_true, beq_iff_eq] using h3 w hw
  · exact is_generated_name_join _ _ _
      (mem_all_words (Or.inr (Or.inr (List.get_mem _ i.1 i.2))))
      (mem_all_words (Or.inl (List.get_mem _ j.1 j.2)))
      (mem_all_words (Or.inr (Or.inl (List.get_mem _ k.1 k.2))))

/-- Claim C3: every identifier produced by `generate_name` — one action, one
adjective, one noun joined by `'-'` — is recognized by `is_generated_name`. -/
theorem claim_C3_roundtrip (i : Fin actions.length) (j : Fin adjectives.length)
    (k : Fin nouns.length) :
    is_generated_name (generate_name i j k) = true :=
  is_generated_name_join _ _ _
    (mem_all_words (Or.inl (List.get_mem _ i.1 i.2)))
    (mem_all_words (Or.inr (Or.inl (List.get_mem _ j.1 j.2))))
    (mem_all_words (Or.inr (Or.inr (List.get_mem _ k.1 k.2))))

/-- Claim C8: the three vocabularies are fixed non-empty lists whose words
consist only of lowercase alphabetic characters — in particular no word
contains the separator `'-'` or any whitespace. -/
theorem claim_C8_vocab_invariants :
    (actions ≠ [] ∧ adjectives ≠ [] ∧ nouns ≠ []) ∧
    ∀ w ∈ all_words, w.data ≠ [] ∧ ∀ c ∈ w.data,
      ('a' ≤ c ∧ c ≤ 'z') ∧ c ≠ '-' ∧ pyspace c = false := by decide

/-! ### Claims about `epoch_to_age` -/

/-- Claim C4: the five age buckets, tried in order with first match winning;
minutes and hours are the floor of the remainder-of-day second count divided
by 60 resp. 3600; and the boundary examples `age = 90s ↦ "1 minutes ago"`,
`age = 90000s ↦ "yesterday"`. -/
theorem claim_C4_age_buckets :
    (∀ now epoch : Int,
      (now - epoch < 60 → epoch_to_age now epoch = "just now") ∧
      (60 ≤ now - epoch → now - epoch < 3600 →
        epoch_to_age now epoch =
          toString (((now - epoch).emod 86400).fdiv 60) ++ " minutes ago") ∧
      (3600 ≤ now - epoch → now - epoch < 86400 →
        epoch_to_age now epoch =
          toString (((now - epoch).emod 86400).fdiv 3600) ++ " hours ago") ∧
      (86400 ≤ now - epoch → now - epoch < 172800 →
        epoch_to_age now epoch = "yesterday") ∧
      (172800 ≤ now - epoch →
        epoch_to_age now epoch =
          toString ((now - epoch).fdiv 86400) ++ " days ago ("
            ++ dateOfEpoch epoch ++ ")")) ∧
    (∀ now : Int, epoch_to_age now (now - 90) = "1 minutes ago") ∧
    (∀ now : Int, epoch_to_age now (now - 90000) = "yesterday") := by
  have key : ∀ now epoch : Int, epoch_to_age now epoch =
      (if now - epoch < 60 then "just now"
       else if now - epoch < 3600 then
         toString (((now - epoch).emod 86400).fdiv 60) ++ " minutes ago"
       else if now - epoch < 86400 then
         toString (((now - epoch).emod 86400).fdiv 3600) ++ " hours ago"
       else if now - epoch < 172800 then "yesterday"
       else toString ((now - epoch).fdiv 86400) ++ " days ago ("
         ++ dateOfEpoch epoch ++ ")") := fun now epoch => rfl
  refine ⟨fun now epoch => ?_, fun now => ?_, fun now => ?_⟩
  · refine ⟨fun h1 => ?_, fun h1 h2 => ?_, fun h1 h2 => ?_, fun h1 h2 => ?_,
      fun h1 => ?_⟩ <;>
      rw [key] <;>
      first
        | rw [if_pos (by omega)]
        | rw [if_neg (by omega), if_pos (by omega)]
        | rw [if_neg (by omega), if_neg (by omega), if_pos (by omega)]
        | rw [if_neg (by omega), if_neg (by omega), if_neg (by omega),
            if_pos (by omega)]
        | rw [if_neg (by omega), if_neg (by omega), if_neg (by omega),
            if_neg (by omega)]
  · rw [key]
    have h90 : now - (now - 90) = 90 := by ring
    rw [h90]
    norm_num
    decide
  · rw [key]
    have h9 : now - (now - 90000) = 90000 := by ring
    rw [h9]
    norm_num

/-- Witness for claim C4 at concrete times. -/
theorem claim_C4_age_buckets_witness :
    epoch_to_age 1000 970 = "just now" ∧
    epoch_to_age 1000 910 = "1 minutes ago" :=
  ⟨(claim_C4_age_buckets.1 1000 970).1 (by norm_num),
   claim_C4_age_buckets.2.1 1000⟩

/-- Claim C9: a timestamp strictly in the future gives a negative age, which
satisfies the first bucket's comparison, so `epoch_to_age` returns
`"just now"`. -/
theorem claim_C9_future_just_now (now epoch : Int) (h : now < epoch) :
    epoch_to_age now epoch = "just now" := by
  have h60 : now - epoch < 60 := by omega
  show (if now - epoch < 60 then "just now" else _) = "just now"
  rw [if_pos h60]

/-- Witness for claim C9. -/
theorem claim_C9_future_just_now_witness : epoch_to_age 0 100 = "just now" :=
  claim_C9_future_just_now 0 100 (by norm_num)

/-! ### Line structure lemmas for the transformer -/

theorem splitNl_ne_nil (s : List Char) : splitNl s ≠ [] :=
  splitOnChar_ne_nil '\n' s

theorem joinNl_cons₂ (l l' : List Char) (ls : List (List Char)) :
    joinNl (l :: l' :: ls) = l ++ '\n' :: joinNl (l' :: ls) := rfl

theorem joinNl_splitNl (s : List Char) : joinNl (splitNl s) = s := by
  induction s with
  | nil => rfl
  | cons c t ih =>
    simp only [splitNl, splitOnChar] at *
    by_cases hc : c = '\n'
    · subst hc
      rw [if_pos rfl]
      cases hs : splitOnChar '\n' t with
      | nil => exact absurd hs (splitOnChar_ne_nil _ _)
      | cons a r =>
        rw [hs] at ih
        rw [joinNl_cons₂, ih]
        rfl
    · rw [if_neg hc]
      cases hs : splitOnChar '\n' t with
      | nil => exact absurd hs (splitOnChar_ne_nil _ _)
      | cons a r =>
        rw [hs] at ih
        cases r with
        | nil => simp only [joinNl] at ih ⊢; rw [ih]
        | cons b r' => rw [joinNl_cons₂] at ih ⊢; simp [← ih]

theorem map_id_of_eq {α : Type} {l : List α} {f : α → α}
    (h : ∀ a ∈ l, f a = a) : l.map f = l := by
  induction l with
  | nil => rfl
  | cons x xs ih =>
    simp only [List.map_cons, h x (by simp),
      ih (fun a ha => h a (by simp [ha]))]

/-- Body of claim C10's universal part, shared with the claim C6 analysis:
pass 1 is the identity on texts none of whose lines starts with `"> "`
followed by characters containing a colon. -/
theorem pass1_id_of_lines (s : List Char)
    (h : ∀ l ∈ splitNl s, ¬(l.take 2 = ['>', ' '] ∧ ':' ∈ l.drop 2)) :
    pass1 s = s := by
  unfold pass1
  rw [map_id_of_eq, joinNl_splitNl]
  intro l hl
  unfold stripQuoteLine
  rw [if_neg]
  rintro ⟨h1, h2⟩
  have h3 : (l.drop 2).drop 1 = l.drop 3 := by rw [List.drop_drop]
  exact h l hl ⟨h1, List.mem_of_mem_drop (n := 1) (h3.symm ▸ h2)⟩

/-- In non-strict mode the transform always succeeds with the composition of
the two passes around the indentation (shared helper). -/
theorem transform_false_ok (s : List Char) :
    transform_examples_to_chat_directives s false
      = .ok (pass2 (indent3 (pass1 s))) := by
  unfold transform_examples_to_chat_directives
  rw [if_neg (by simp), if_neg (by simp)]

/-! ### Claims C1, C7 (concrete transform evaluations) -/

/-- Counterexample to claim C1: `transform_examples_to_chat_directives` on
`"Assistant: hi"` with `strict = true` does NOT fail with
`NoDirectivePlacementFound` — it fails with `NoMessageFound`, because pass 1
(which only deletes `"> "` quote markers) leaves the text unchanged. -/
theorem claim_C1_counterexample :
    transform_examples_to_chat_directives "Assistant: hi".data true
        ≠ .error .NoDirectivePlacementFound ∧
    transform_examples_to_chat_directives "Assistant: hi".data true
        = .error .NoMessageFound := by
  have h : transform_examples_to_chat_directives "Assistant: hi".data true
      = .error .NoMessageFound := rfl
  refine ⟨?_, h⟩
  rw [h]
  simp

/-- Claim C1 as amended: with `strict = true`, `"no colons here"` and
`"Assistant: hi"` both fail with `NoMessageFound` (pass 1 changes nothing in
either), while `"> Assistant: hi"` fails with `NoDirectivePlacementFound`
(pass 1 strips the quote marker but no `User:` anchor is found). -/
theorem claim_C1_amended :
    transform_examples_to_chat_directives "no colons here".data true
        = .error .NoMessageFound ∧
    transform_examples_to_chat_directives "Assistant: hi".data true
        = .error .NoMessageFound ∧
    transform_examples_to_chat_directives "> Assistant: hi".data true
        = .error .NoDirectivePlacementFound :=
  ⟨rfl, rfl, rfl⟩

/-- Claim C7: the basic transcript example. The transform succeeds, the output
is the transcript indented by one three-space unit with a `.. chat::`
directive line inserted before the indented `User: hello` line (line 2 of the
output holds the directive, line 4 the indented user turn), and the directive
occurs exactly once. -/
theorem claim_C7_basic_example :
    transform_examples_to_chat_directives "User: hello\nAssistant: hi".data
        false
      = .ok "\n\n.. chat::\n\n   User: hello\n   Assistant: hi".data ∧
    splitNl "\n\n.. chat::\n\n   User: hello\n   Assistant: hi".data
      = [[], [], ".. chat::".data, [], "   User: hello".data,
         "   Assistant: hi".data] ∧
    countOccs ".. chat::".data
      "\n\n.. chat::\n\n   User: hello\n   Assistant: hi".data = 1 :=
  ⟨rfl, rfl, rfl⟩

/-! ### Claim C5 (error taxonomy) -/

/-- Claim C5: `NoMessageFound` arises only with `strict = true` and an
unchanged pass-1 result; `NoDirectivePlacementFound` only with `strict = true`
and an unchanged pass-2 result; with `strict = false` the transform always
succeeds, returning the two passes' composition. -/
theorem claim_C5_error_conditions (s : List Char) (strict : Bool) :
    (transform_examples_to_chat_directives s strict
        = .error .NoMessageFound → strict = true ∧ pass1 s = s) ∧
    (transform_examples_to_chat_directives s strict
        = .error .NoDirectivePlacementFound →
      strict = true ∧ pass2 (indent3 (pass1 s)) = indent3 (pass1 s)) ∧
    transform_examples_to_chat_directives s false
      = .ok (pass2 (indent3 (pass1 s))) := by
  refine ⟨?_, ?_, ?_⟩
  · intro h
    unfold transform_examples_to_chat_directives at h
    split at h
    · next hc => exact hc
    · next =>
      split at h
      · exact absurd h (by simp)
      · exact absurd h (by simp)
  · intro h
    unfold transform_examples_to_chat_directives at h
    split at h
    · exact absurd h (by simp)
    · next =>
      split at h
      · next hc => exact hc
      · exact absurd h (by simp)
  · exact transform_false_ok s

/-- Witness for claim C5: the hypotheses discharged at the concrete strict
failures of each kind. -/
theorem claim_C5_error_conditions_witness :
    (true = true ∧ pass1 "no colons here".data = "no colons here".data) ∧
    (true = true ∧
      pass2 (indent3 (pass1 "> Assistant: hi".data))
        = indent3 (pass1 "> Assistant: hi".data)) :=
  ⟨(claim_C5_error_conditions "no colons here".data true).1 rfl,
   (claim_C5_error_conditions "> Assistant: hi".data true).2.1 rfl⟩

/-! ### Claim C10 (pass 1 only deletes quote markers) -/

/-- Claim C10: pass 1 changes a line only by deleting a leading `"> "`
marker; on any text none of whose lines starts with `"> "` followed by
characters containing a colon, pass 1 is the identity — so the strict
transform of `"Assistant: hi"` fails with `NoMessageFound` even though the
text contains a role line. -/
theorem claim_C10_pass1_quote_only :
    (∀ s : List Char,
      (∀ l ∈ splitNl s, ¬(l.take 2 = ['>', ' '] ∧ ':' ∈ l.drop 2)) →
      pass1 s = s) ∧
    transform_examples_to_chat_directives "Assistant: hi".data true
      = .error .NoMessageFound :=
  ⟨pass1_id_of_lines, rfl⟩

/-- Witness for claim C10 at the concrete text of its second conjunct. -/
theorem claim_C10_pass1_quote_only_witness :
    pass1 "Assistant: hi".data = "Assistant: hi".data :=
  claim_C10_pass1_quote_only.1 "Assistant: hi".data (by decide)

/-! ### Unfolding equations for `scan` -/

theorem scanF_fuel (f g : Nat) (t : List Char) (hf : t.length ≤ f)
    (hg : t.length ≤ g) : scanF f t = scanF g t := by
  induction f generalizing g t with
  | zero =>
    have ht : t = [] := by
      cases t with
      | nil => rfl
      | cons c t' => simp at hf
    subst ht
    cases g <;> rfl
  | succ f ih =>
    cases t with
    | nil => cases g <;> rfl
    | cons c t' =>
      cases g with
      | zero => simp at hg
      | succ g' =>
        simp only [List.length_cons, Nat.add_le_add_iff_right] at hf hg
        simp only [scanF]
        by_cases hc : c = '\n'
        · rw [if_pos hc, if_pos hc]
          cases hm : matchAt t' with
          | none => dsimp only; rw [ih g' t' hf hg]
          | some p =>
            obtain ⟨rep, n⟩ := p
            have hd : (t'.drop n).length ≤ t'.length := by
              simp [List.length_drop]
            dsimp only
            rw [ih g' (t'.drop n) (le_trans hd hf) (le_trans hd hg)]
        · rw [if_neg hc, if_neg hc, ih g' t' hf hg]

theorem scan_cons_ne (c : Char) (t : List Char) (hc : c ≠ '\n') :
    scan (c :: t) = c :: scan t := by
  show scanF (t.length + 1) (c :: t) = c :: scanF t.length t
  simp only [scanF, if_neg hc]

theorem scan_nl_none (t : List Char) (h : matchAt t = none) :
    scan ('\n' :: t) = '\n' :: scan t := by
  show scanF (t.length + 1) ('\n' :: t) = '\n' :: scanF t.length t
  conv_lhs => unfold scanF
  rw [if_pos rfl, h]

theorem scan_nl_some (t rep : List Char) (n : Nat)
    (h : matchAt t = some (rep, n)) :
    scan ('\n' :: t) = '\n' :: (rep ++ scan (t.drop n)) := by
  show scanF (t.length + 1) ('\n' :: t) = '\n' :: (rep ++ scan (t.drop n))
  conv_lhs => unfold scanF
  rw [if_pos rfl, h]
  dsimp only
  rw [scanF_fuel t.length (t.drop n).length (t.drop n)
    (by simp [List.length_drop]) le_rfl]
  rfl

theorem scan_no_nl (t : List Char) (h : '\n' ∉ t) : scan t = t := by
  induction t with
  | nil => rfl
  | cons c t' ih =>
    simp only [List.mem_cons, not_or] at h
    rw [scan_cons_ne c t' (fun hc => h.1 hc.symm), ih h.2]

theorem scan_append_no_nl (x y : List Char) (h : '\n' ∉ x) :
    scan (x ++ y) = x ++ scan y := by
  induction x with
  | nil => rfl
  | cons c x' ih =>
    simp only [List.mem_cons, not_or] at h
    rw [List.cons_append, scan_cons_ne c _ (fun hc => h.1 hc.symm), ih h.2]
    rfl

/-! ### Generic helpers on `take`, `takeWhile`, `findIdx` -/

theorem takeWhile_all (q : Char → Bool) (l : List Char)
    (h : ∀ a ∈ l, q a = true) : l.takeWhile q = l := by
  induction l with
  | nil => rfl
  | cons a l' ih =>
    rw [List.takeWhile_cons, if_pos (h a (by simp)),
      ih (fun a ha => h a (by simp [ha]))]

theorem takeWhile_append_bk (q : Char → Bool) (x : List Char) (b : Char)
    (y : List Char) (hb : q b = false) :
    (x ++ b :: y).takeWhile q = x.takeWhile q := by
  induction x with
  | nil => simp [List.takeWhile_cons, hb]
  | cons a x' ih =>
    rw [List.cons_append, List.takeWhile_cons, List.takeWhile_cons, ih]

/-- A pattern without `'\n'` matches `take` at the head of `v ++ '\n' :: y`
iff it matches at the head of `v` alone. -/
theorem take_pat_append_nl (pat v y : List Char) (hnl : '\n' ∉ pat) :
    (v ++ '\n' :: y).take pat.length = pat ↔ v.take pat.length = pat := by
  induction v generalizing pat with
  | nil =>
    cases pat with
    | nil => simp
    | cons p0 pr =>
      have hp0 : p0 ≠ '\n' := by
        intro he
        exact hnl (by simp [he])
      constructor
      · intro h
        rw [List.nil_append, List.length_cons, List.take_succ_cons] at h
        injection h with h1 h2
        exact absurd h1.symm hp0
      · intro h
        rw [List.length_cons, List.take_nil] at h
        exact absurd h (by simp)
  | cons a v' ih =>
    cases pat with
    | nil => simp
    | cons p0 pr =>
      simp only [List.mem_cons, not_or] at hnl
      simp only [List.cons_append, List.length_cons, List.take_succ_cons,
        List.cons.injEq]
      rw [ih pr hnl.2]

theorem isPre_of_take_eq (pat x : List Char) (h : x.take pat.length = pat) :
    pat <+: x := by
  refine ⟨x.drop pat.length, ?_⟩
  nth_rewrite 1 [← h]
  rw [List.take_append_drop]

theorem take_ne_of_not_isPre (pat x y : List Char) (hnp : ¬ pat <+: x)
    (hnl : '\n' ∉ pat) : (x ++ '\n' :: y).take pat.length ≠ pat := by
  intro h
  exact hnp (isPre_of_take_eq pat x ((take_pat_append_nl pat x y hnl).1 h))

theorem take_ne_of_not_isPre' (pat x : List Char) (hnp : ¬ pat <+: x) :
    x.take pat.length ≠ pat :=
  fun h => hnp (isPre_of_take_eq pat x h)

/-! ### Failure and success cases for `matchAt` at a line start -/

theorem matchAt_eq_none (t : List Char) (h1 : tryGroup2 t = none)
    (h2 : t.take 8 ≠ "   User:".data) : matchAt t = none := by
  unfold matchAt
  rw [h1, if_neg h2]

theorem matchAt_nil : matchAt [] = none := rfl

/-- No match can start at a position whose first character is not a space
(both the heading group and the bare `"   User:"` literal open with three
spaces). -/
theorem matchAt_none_head (c : Char) (t : List Char) (hc : c ≠ ' ') :
    matchAt (c :: t) = none := by
  apply matchAt_eq_none
  · unfold tryGroup2
    rw [if_neg]
    intro h
    rw [show (c :: t).take 3 = c :: t.take 2 from rfl] at h
    injection h with h1
    exact hc h1
  · intro h
    rw [show (c :: t).take 8 = c :: t.take 7 from rfl,
      show "   User:".data = ' ' :: "  User:".data from rfl] at h
    injection h with h1
    exact hc h1

theorem g2Head_none_head (c : Char) (w : List Char)
    (hc : headingChar c = false) : g2Head (c :: w) = none := by
  have ht : (c :: w).takeWhile headingChar = [] := by
    rw [List.takeWhile_cons, hc]
    rfl
  unfold g2Head
  rw [if_pos ht]

theorem tryGroup2_sp_none (w : List Char) (h : g2Head w = none) :
    tryGroup2 (' ' :: ' ' :: ' ' :: w) = none := by
  unfold tryGroup2
  rw [if_pos (show List.take 3 (' ' :: ' ' :: ' ' :: w) = [' ', ' ', ' ']
      from rfl),
    show List.drop 3 (' ' :: ' ' :: ' ' :: w) = w from rfl, h]

/-- Failure of `matchAt` at a line whose content after the three indent
spaces starts with a non-heading character that does not open `"User:"`. -/
theorem matchAt_none_nohead (c : Char) (w : List Char)
    (hc : headingChar c = false) (hu5 : (c :: w).take 5 ≠ "User:".data) :
    matchAt (' ' :: ' ' :: ' ' :: c :: w) = none := by
  apply matchAt_eq_none
  · exact tryGroup2_sp_none _ (g2Head_none_head c w hc)
  · intro h
    rw [show (' ' :: ' ' :: ' ' :: c :: w).take 8
          = ' ' :: ' ' :: ' ' :: ((c :: w).take 5) from rfl,
      show "   User:".data = ' ' :: ' ' :: ' ' :: "User:".data from rfl] at h
    injection h with _ h
    injection h with _ h
    injection h with _ h
    exact hu5 h

theorem length_takeWhile_le (q : Char → Bool) (l : List Char) :
    (l.takeWhile q).length ≤ l.length := by
  conv_rhs => rw [← List.takeWhile_append_dropWhile q l]
  rw [List.length_append]
  omega

/-- `g2Head` does not see past the end of the current line. -/
theorem g2Head_append (p z : List Char) (_hp : '\n' ∉ p) :
    g2Head (p ++ '\n' :: z) = g2Head p := by
  have h1 : (p ++ '\n' :: z).takeWhile headingChar = p.takeWhile headingChar :=
    takeWhile_append_bk _ _ _ _ (by rfl)
  have hle : (p.takeWhile headingChar).length ≤ p.length :=
    length_takeWhile_le _ _
  have h2 : (p ++ '\n' :: z).drop (p.takeWhile headingChar).length
      = p.drop (p.takeWhile headingChar).length ++ '\n' :: z :=
    List.drop_append_of_le_length hle
  have h3 : ((p.drop (p.takeWhile headingChar).length) ++ '\n' :: z).takeWhile
        (fun c => c != '\n')
      = (p.drop (p.takeWhile headingChar).length).takeWhile
        (fun c => c != '\n') :=
    takeWhile_append_bk _ _ _ _ (by rfl)
  unfold g2Head
  rw [h1, h2, h3]

/-- On a line without `'\n'`, a successful `g2Head` always consumes the whole
line. -/
theorem g2Head_value (p : List Char) (hp : '\n' ∉ p) :
    g2Head p = none ∨ ∃ g3, g2Head p = some (g3, p.length) := by
  have hcontent : (p.drop (p.takeWhile headingChar).length).takeWhile
      (fun c => c != '\n') = p.drop (p.takeWhile headingChar).length := by
    apply takeWhile_all
    intro a ha
    have : a ∈ p := List.mem_of_mem_drop ha
    simp only [bne_iff_ne, ne_eq]
    intro he
    exact hp (he ▸ this)
  have hle : (p.takeWhile headingChar).length ≤ p.length :=
    length_takeWhile_le _ _
  unfold g2Head
  by_cases h0 : p.takeWhile headingChar = []
  · exact Or.inl (by rw [if_pos h0])
  · rw [if_neg h0, hcontent]
    by_cases h1 : p.drop (p.takeWhile headingChar).length = []
    · rw [if_pos h1]
      have hlen : (p.takeWhile headingChar).length = p.length := by
        have := List.length_drop (p.takeWhile headingChar).length p
        rw [h1] at this
        simp at this
        omega
      by_cases h2 : 2 ≤ (p.takeWhile headingChar).length
      · refine Or.inr ⟨(p.takeWhile headingChar).drop
          ((p.takeWhile headingChar).length - 1), ?_⟩
        rw [if_pos h2, hlen]
      · exact Or.inl (by rw [if_neg h2])
    · rw [if_neg h1]
      refine Or.inr ⟨p.drop (p.takeWhile headingChar).length, ?_⟩
      have hlen : (p.drop (p.takeWhile headingChar).length).length
          = p.length - (p.takeWhile headingChar).length :=
        List.length_drop _ _
      rw [hlen]
      have harith : (p.takeWhile headingChar).length
          + (p.length - (p.takeWhile headingChar).length) = p.length := by
        omega
      rw [harith]

theorem drop_three_sp (x y z : Char) (w : List Char) (n : Nat) :
    (x :: y :: z :: w).drop (3 + n) = w.drop n := by
  rw [show 3 + n = n + 1 + 1 + 1 by omega, List.drop_succ_cons,
    List.drop_succ_cons, List.drop_succ_cons]

/-- Failure of `tryGroup2` at an indented line followed by more text, when
the terminal `"   User:"` search fails after the line's newline. -/
theorem tryGroup2_heading_none (p z : List Char) (hp : '\n' ∉ p)
    (hterm : g2Term z = none) :
    tryGroup2 (' ' :: ' ' :: ' ' :: (p ++ '\n' :: z)) = none := by
  unfold tryGroup2
  rw [if_pos (show List.take 3 (' ' :: ' ' :: ' ' :: (p ++ '\n' :: z))
        = [' ', ' ', ' '] from rfl),
    show List.drop 3 (' ' :: ' ' :: ' ' :: (p ++ '\n' :: z)) = p ++ '\n' :: z
      from rfl,
    g2Head_append p z hp]
  rcases g2Head_value p hp with h | ⟨g3, h⟩
  · rw [h]
  · rw [h]
    dsimp only
    have hdrop : (' ' :: ' ' :: ' ' :: (p ++ '\n' :: z)).drop (3 + p.length)
        = '\n' :: z := by
      rw [drop_three_sp]
      exact List.drop_left p ('\n' :: z)
    rw [hdrop]
    show (match g2Term z with
      | some m => some (g3, 3 + p.length + 1 + m)
      | none => none) = none
    rw [hterm]

/-- Failure of `tryGroup2` at the final line of the text (no newline after
it, so the heading group's `(\n\s*)+` cannot match). -/
theorem tryGroup2_last_none (p : List Char) (hp : '\n' ∉ p) :
    tryGroup2 (' ' :: ' ' :: ' ' :: p) = none := by
  unfold tryGroup2
  rw [if_pos (show List.take 3 (' ' :: ' ' :: ' ' :: p) = [' ', ' ', ' ']
      from rfl),
    show List.drop 3 (' ' :: ' ' :: ' ' :: p) = p from rfl]
  rcases g2Head_value p hp with h | ⟨g3, h⟩
  · rw [h]
  · rw [h]
    dsimp only
    have hdrop : (' ' :: ' ' :: ' ' :: p).drop (3 + p.length) = [] := by
      rw [drop_three_sp]
      exact List.drop_length p
    rw [hdrop]

/-- Failure of `matchAt` at an indented line (heading-shaped or not) followed
by more text, when the after-line terminal search fails and the line does not
open `"User:"` after the first three spaces. -/
theorem matchAt_heading_none (p z : List Char) (hp : '\n' ∉ p)
    (hu5 : (p ++ '\n' :: z).take 5 ≠ "User:".data)
    (hterm : g2Term z = none) :
    matchAt (' ' :: ' ' :: ' ' :: (p ++ '\n' :: z)) = none := by
  apply matchAt_eq_none
  · exact tryGroup2_heading_none p z hp hterm
  · intro h
    rw [show (' ' :: ' ' :: ' ' :: (p ++ '\n' :: z)).take 8
          = ' ' :: ' ' :: ' ' :: ((p ++ '\n' :: z).take 5) from rfl,
      show "   User:".data = ' ' :: ' ' :: ' ' :: "User:".data from rfl] at h
    injection h with _ h
    injection h with _ h
    injection h with _ h
    exact hu5 h

/-- Failure of `matchAt` at the final line of the text. -/
theorem matchAt_last_none (p : List Char) (hp : '\n' ∉ p)
    (hu5 : p.take 5 ≠ "User:".data) :
    matchAt (' ' :: ' ' :: ' ' :: p) = none := by
  apply matchAt_eq_none
  · exact tryGroup2_last_none p hp
  · intro h
    rw [show (' ' :: ' ' :: ' ' :: p).take 8
          = ' ' :: ' ' :: ' ' :: (p.take 5) from rfl,
      show "   User:".data = ' ' :: ' ' :: ' ' :: "User:".data from rfl] at h
    injection h with _ h
    injection h with _ h
    injection h with _ h
    exact hu5 h

/-- Success of `matchAt` at an indented `User:` line: the heading group fails
(`'U'` is not a heading character) and the bare literal matches, consuming
eight characters. -/
theorem matchAt_user (w : List Char) :
    matchAt (' ' :: ' ' :: ' ' :: 'U' :: 's' :: 'e' :: 'r' :: ':' :: w)
      = some (chatRep, 8) := rfl

/-! ### Failure cases for the terminal search `g2Term` -/

theorem g2Term_nil : g2Term [] = none := rfl

/-- The terminal search fails when the first non-whitespace character after
the newline opens a doubly indented line whose content does not begin with
`"User:"`. -/
theorem g2Term_six (c : Char) (w : List Char) (hc : pyspace c = false)
    (h5 : (c :: w).take 5 ≠ "User:".data) :
    g2Term (' ' :: ' ' :: ' ' :: ' ' :: ' ' :: ' ' :: c :: w) = none := by
  have hq : (' ' :: ' ' :: ' ' :: ' ' :: ' ' :: ' ' :: c :: w).findIdx
      (fun c => !(pyspace c)) = 6 := by
    simp [List.findIdx_cons, show pyspace ' ' = true from rfl, hc]
  unfold g2Term
  rw [hq, if_neg]
  rintro ⟨-, -, h8⟩
  rw [show (6 : Nat) - 3 = 3 from rfl,
    show (' ' :: ' ' :: ' ' :: ' ' :: ' ' :: ' ' :: c :: w).drop 3
      = ' ' :: ' ' :: ' ' :: c :: w from rfl,
    show (' ' :: ' ' :: ' ' :: c :: w).take 8
      = ' ' :: ' ' :: ' ' :: ((c :: w).take 5) from rfl,
    show "   User:".data = ' ' :: ' ' :: ' ' :: "User:".data from rfl] at h8
  injection h8 with _ h8
  injection h8 with _ h8
  injection h8 with _ h8
  exact h5 h8

/-- The terminal search fails when the next nonblank line (after two blank
lines) is the inserted once-indented `.. chat::` directive line. -/
theorem g2Term_chat (w : List Char) :
    g2Term ('\n' :: '\n' :: ("   .. chat::".data ++ w)) = none := by
  have hz : '\n' :: '\n' :: ("   .. chat::".data ++ w)
      = '\n' :: '\n' :: ' ' :: ' ' :: ' ' :: '.' :: '.' :: ' ' :: 'c' :: 'h'
        :: 'a' :: 't' :: ':' :: ':' :: w := rfl
  rw [hz]
  have hq : ('\n' :: '\n' :: ' ' :: ' ' :: ' ' :: '.' :: '.' :: ' ' :: 'c'
      :: 'h' :: 'a' :: 't' :: ':' :: ':' :: w).findIdx
      (fun c => !(pyspace c)) = 5 := by
    simp [List.findIdx_cons, show pyspace ' ' = true from rfl,
      show pyspace '\n' = true from rfl, show pyspace '.' = false from rfl]
  unfold g2Term
  rw [hq, if_neg]
  rintro ⟨-, -, h8⟩
  rw [show (5 : Nat) - 3 = 2 from rfl,
    show ('\n' :: '\n' :: ' ' :: ' ' :: ' ' :: '.' :: '.' :: ' ' :: 'c' :: 'h'
        :: 'a' :: 't' :: ':' :: ':' :: w).drop 2
      = ' ' :: ' ' :: ' ' :: '.' :: '.' :: ' ' :: 'c' :: 'h' :: 'a' :: 't'
        :: ':' :: ':' :: w from rfl,
    show (' ' :: ' ' :: ' ' :: '.' :: '.' :: ' ' :: 'c' :: 'h' :: 'a' :: 't'
        :: ':' :: ':' :: w).take 8
      = [' ', ' ', ' ', '.', '.', ' ', 'c', 'h'] from rfl] at h8
  exact absurd h8 (by decide)

/-! ### More line-structure lemmas -/

theorem mem_splitOnChar_not_sep (sep : Char) (s : List Char) :
    ∀ l ∈ splitOnChar sep s, sep ∉ l := by
  induction s with
  | nil =>
    intro l hl
    simp [splitOnChar] at hl
    simp [hl]
  | cons c t ih =>
    intro l hl
    simp only [splitOnChar] at hl
    split at hl
    · rcases List.mem_cons.1 hl with h | h
      · simp [h]
      · exact ih l h
    · next hc =>
      cases hs : splitOnChar sep t with
      | nil => exact absurd hs (splitOnChar_ne_nil sep t)
      | cons a r =>
        rw [hs] at hl
        rcases List.mem_cons.1 hl with h | h
        · subst h
          intro hmem
          rcases List.mem_cons.1 hmem with h' | h'
          · exact hc h'.symm
          · exact ih a (hs ▸ List.mem_cons_self a r) h'
        · exact ih l (hs ▸ List.mem_cons.2 (Or.inr h))

theorem mem_splitNl_no_nl (s : List Char) : ∀ l ∈ splitNl s, '\n' ∉ l :=
  mem_splitOnChar_not_sep '\n' s

theorem splitNl_joinNl (ls : List (List Char)) (h : ∀ l ∈ ls, '\n' ∉ l)
    (hne : ls ≠ []) : splitNl (joinNl ls) = ls := by
  induction ls with
  | nil => exact absurd rfl hne
  | cons l ls' ih =>
    cases ls' with
    | nil =>
      show splitNl l = [l]
      exact splitOnChar_no_sep '\n' l (h l (by simp))
    | cons l' ls'' =>
      rw [joinNl_cons₂]
      rw [show splitNl (l ++ '\n' :: joinNl (l' :: ls''))
          = l :: splitNl (joinNl (l' :: ls'')) from
        splitOnChar_append_sep '\n' l _ (h l (by simp))]
      rw [ih (fun a ha => h a (by simp [ha])) (by simp)]

theorem joinNl_append (X Y : List (List Char)) (hX : X ≠ []) (hY : Y ≠ []) :
    joinNl (X ++ Y) = joinNl X ++ '\n' :: joinNl Y := by
  induction X with
  | nil => exact absurd rfl hX
  | cons x X' ih =>
    cases X' with
    | nil =>
      cases Y with
      | nil => exact absurd rfl hY
      | cons y Y' => simp [joinNl_cons₂, joinNl]
    | cons x' X'' =>
      rw [List.cons_append, joinNl_cons₂]
      rw [show (x' :: X'') ++ Y = x' :: (X'' ++ Y) from rfl]
      rw [show joinNl (x :: x' :: (X'' ++ Y))
          = x ++ '\n' :: joinNl (x' :: (X'' ++ Y)) from joinNl_cons₂ _ _ _]
      rw [show x' :: (X'' ++ Y) = (x' :: X'') ++ Y from rfl]
      rw [ih (by simp)]
      simp

theorem countP_one_split {α : Type} (p : α → Bool) (l : List α)
    (h : l.countP p = 1) :
    ∃ A x B, l = A ++ x :: B ∧ p x = true ∧ A.countP p = 0
      ∧ B.countP p = 0 := by
  induction l with
  | nil => simp [List.countP_nil] at h
  | cons c t ih =>
    rw [List.countP_cons] at h
    by_cases hc : p c = true
    · rw [if_pos hc] at h
      have ht : t.countP p = 0 := by omega
      exact ⟨[], c, t, by simp, hc, by simp, ht⟩
    · rw [if_neg hc] at h
      simp at h
      obtain ⟨A, x, B, h1, h2, h3, h4⟩ := ih h
      refine ⟨c :: A, x, B, by simp [h1], h2, ?_, h4⟩
      rw [List.countP_cons, if_neg hc]
      simpa using h3

/-! ### Occurrence counting lemmas -/

theorem countOccs_nil (pat : List Char) : countOccs pat [] = 0 := rfl

theorem countOccs_append_nl (pat x y : List Char) (hnl : '\n' ∉ pat)
    (hne : pat ≠ []) :
    countOccs pat (x ++ '\n' :: y) = countOccs pat x + countOccs pat y := by
  induction x with
  | nil =>
    have hneg : ¬(('\n' :: y).take pat.length = pat) := by
      intro h
      cases pat with
      | nil => exact hne rfl
      | cons p0 pr =>
        rw [List.length_cons, List.take_succ_cons] at h
        injection h with h1
        exact hnl (by simp [← h1])
    simp only [List.nil_append, countOccs, countOccs_nil]
    try rw [if_neg hneg]
    try omega
  | cons c x' ih =>
    rw [List.cons_append]
    show (if ((c :: (x' ++ '\n' :: y)).take pat.length = pat) then 1 else 0)
        + countOccs pat (x' ++ '\n' :: y)
      = ((if ((c :: x').take pat.length = pat) then 1 else 0)
        + countOccs pat x') + countOccs pat y
    rw [ih, show c :: (x' ++ '\n' :: y) = (c :: x') ++ '\n' :: y from rfl]
    have hiff := take_pat_append_nl pat (c :: x') y hnl
    by_cases hcase : (c :: x').take pat.length = pat
    · rw [if_pos hcase, if_pos (hiff.2 hcase)]
      omega
    · rw [if_neg hcase, if_neg (fun hh => hcase (hiff.1 hh))]
      omega

theorem countOccs_join (pat : List Char) (hnl : '\n' ∉ pat) (hne : pat ≠ [])
    (ls : List (List Char)) :
    countOccs pat (joinNl ls) = (ls.map (countOccs pat)).sum := by
  induction ls with
  | nil => simp [joinNl, countOccs_nil]
  | cons l ls' ih =>
    cases ls' with
    | nil => simp [joinNl]
    | cons l' ls'' =>
      rw [joinNl_cons₂, countOccs_append_nl pat _ _ hnl hne, ih]
      simp

/-- Prepending a character different from the pattern's head does not create
an occurrence at the front. -/
theorem countOccs_cons_ne (pat : List Char) (p0 : Char) (hp : pat.take 1 = [p0])
    (c : Char) (l : List Char) (hc : c ≠ p0) :
    countOccs pat (c :: l) = countOccs pat l := by
  show (if ((c :: l).take pat.length = pat) then 1 else 0) + countOccs pat l
    = countOccs pat l
  rw [if_neg, Nat.zero_add]
  intro h
  cases pat with
  | nil => simp at hp
  | cons q0 qr =>
    rw [List.take_succ_cons, List.take_zero] at hp
    injection hp with hp
    rw [List.length_cons, List.take_succ_cons] at h
    injection h with h1
    exact hc (hp ▸ h1)

/-! ### The restricted transcript shape for the amended idempotence claim -/

/-- A transcript line suitable for the amended claim C6: nonempty, not
starting with whitespace, `'#'` or `'>'`, containing no newline, and not
starting with `"User:"`. -/
def GoodP (l : List Char) : Prop :=
  ∃ c r, l = c :: r ∧ pyspace c = false ∧ c ≠ '#' ∧ c ≠ '>'
    ∧ '\n' ∉ (c :: r) ∧ ¬("User:".data <+: (c :: r))

/-- Indentation of a nonblank line by one unit. -/
def ind3L (l : List Char) : List Char := "   ".data ++ l

/-- Indentation of a nonblank line by two units. -/
def ind6L (l : List Char) : List Char := "      ".data ++ l

theorem not_space_of_not_pyspace (c : Char) (h : pyspace c = false) :
    c ≠ ' ' := by
  intro he
  subst he
  exact absurd h (by decide)

theorem headingChar_eq_false (c : Char) (h1 : pyspace c = false)
    (h2 : c ≠ '#') : headingChar c = false := by
  unfold headingChar
  rw [Bool.or_eq_false_iff]
  exact ⟨beq_eq_false_iff_ne.2 h2,
    beq_eq_false_iff_ne.2 (not_space_of_not_pyspace c h1)⟩

theorem take5_ne_head (c : Char) (w : List Char) (hc : c ≠ 'U') :
    (c :: w).take 5 ≠ "User:".data := by
  intro h
  rw [show (c :: w).take 5 = c :: w.take 4 from rfl,
    show "User:".data = 'U' :: "ser:".data from rfl] at h
  injection h with h1
  exact hc h1

/-- Failure of `matchAt` at an indented good line followed by more text. -/
theorem matchAt_good3_cont (c : Char) (r z : List Char)
    (h1 : pyspace c = false) (h2 : c ≠ '#')
    (hnp : ¬("User:".data <+: (c :: r))) :
    matchAt (("   ".data ++ (c :: r)) ++ '\n' :: z) = none := by
  rw [show ("   ".data ++ (c :: r)) ++ '\n' :: z
      = ' ' :: ' ' :: ' ' :: c :: (r ++ '\n' :: z) by simp]
  apply matchAt_none_nohead c _ (headingChar_eq_false c h1 h2)
  rw [show c :: (r ++ '\n' :: z) = (c :: r) ++ '\n' :: z from rfl]
  exact take_ne_of_not_isPre "User:".data (c :: r) z hnp (by decide)

/-- Failure of `matchAt` at an indented good line at the end of the text. -/
theorem matchAt_good3_last (c : Char) (r : List Char)
    (h1 : pyspace c = false) (h2 : c ≠ '#')
    (hnp : ¬("User:".data <+: (c :: r))) :
    matchAt ("   ".data ++ (c :: r)) = none := by
  rw [show "   ".data ++ (c :: r) = ' ' :: ' ' :: ' ' :: c :: r from rfl]
  apply matchAt_none_nohead c _ (headingChar_eq_false c h1 h2)
  exact take_ne_of_not_isPre' "User:".data (c :: r) hnp

theorem nl_not_mem_ind3 (l : List Char) (hl : GoodP l) : '\n' ∉ ind3L l := by
  obtain ⟨c, r, rfl, _, _, _, h4, _⟩ := hl
  intro hmem
  rcases List.mem_append.1 hmem with h | h
  · exact absurd h (by decide)
  · exact h4 h

theorem matchAt_ind3_cont (l z : List Char) (hl : GoodP l) :
    matchAt (ind3L l ++ '\n' :: z) = none := by
  obtain ⟨c, r, rfl, h1, h2, _h3, _h4, h5⟩ := hl
  exact matchAt_good3_cont c r z h1 h2 h5

theorem matchAt_ind3_last (l : List Char) (hl : GoodP l) :
    matchAt (ind3L l) = none := by
  obtain ⟨c, r, rfl, h1, h2, _h3, _h4, h5⟩ := hl
  exact matchAt_good3_last c r h1 h2 h5

/-- Unfolding of the join of a two-or-more-line list followed by more text. -/
theorem joinNl_cons₂_append (x y : List Char) (ls : List (List Char))
    (Y : List Char) :
    joinNl (x :: y :: ls) ++ '\n' :: Y
      = x ++ '\n' :: (joinNl (y :: ls) ++ '\n' :: Y) := by
  rw [joinNl_cons₂, List.append_assoc, List.cons_append]

/-- The head line of a once-indented good suffix, with arbitrary following
text, never starts a match. -/
theorem matchAt_seq3 (a : List Char) (A : List (List Char)) (Y : List Char)
    (ha : GoodP a) (hA : ∀ l ∈ A, GoodP l) :
    matchAt (joinNl ((a :: A).map ind3L) ++ '\n' :: Y) = none := by
  cases A with
  | nil =>
    show matchAt (ind3L a ++ '\n' :: Y) = none
    exact matchAt_ind3_cont a Y ha
  | cons a' A' =>
    rw [List.map_cons, List.map_cons, joinNl_cons₂_append]
    exact matchAt_ind3_cont a _ ha

/-- In the once-indented text, the non-`User:` lines of a good transcript
suffix generate no match and scan to themselves. -/
theorem scan_good3_join (B : List (List Char)) (hB : ∀ l ∈ B, GoodP l) :
    matchAt (joinNl (B.map ind3L)) = none
    ∧ scan (joinNl (B.map ind3L)) = joinNl (B.map ind3L) := by
  induction B with
  | nil => exact ⟨matchAt_nil, rfl⟩
  | cons b B' ih =>
    have hb := hB b (by simp)
    have hnl3 := nl_not_mem_ind3 b hb
    cases B' with
    | nil =>
      exact ⟨matchAt_ind3_last b hb, scan_no_nl _ hnl3⟩
    | cons b' B'' =>
      have ih' := ih (fun l hl => hB l (by simp [hl]))
      have hjoin : joinNl ((b :: b' :: B'').map ind3L)
          = ind3L b ++ '\n' :: joinNl ((b' :: B'').map ind3L) := by
        simp only [List.map_cons]
        exact joinNl_cons₂ _ _ _
      refine ⟨?_, ?_⟩
      · rw [hjoin]
        exact matchAt_ind3_cont b _ hb
      · rw [hjoin, scan_append_no_nl _ _ hnl3, scan_nl_none _ ih'.1, ih'.2]

/-- Scanning the once-indented prefix lines up to the `User:` anchor: the
match fires right after the prefix. -/
theorem scan_seek3 (A : List (List Char)) (hA : ∀ l ∈ A, GoodP l)
    (hAne : A ≠ []) (Y rep : List Char) (n : Nat)
    (hm : matchAt Y = some (rep, n)) :
    scan (joinNl (A.map ind3L) ++ '\n' :: Y)
      = joinNl (A.map ind3L) ++ '\n' :: (rep ++ scan (Y.drop n)) := by
  induction A with
  | nil => exact absurd rfl hAne
  | cons a A' ih =>
    have ha := hA a (by simp)
    have hnl3 := nl_not_mem_ind3 a ha
    cases A' with
    | nil =>
      show scan (ind3L a ++ '\n' :: Y) = ind3L a ++ '\n' :: (rep ++ scan (Y.drop n))
      rw [scan_append_no_nl _ _ hnl3, scan_nl_some Y rep n hm]
    | cons a' A'' =>
      have ih' := ih (fun l hl => hA l (by simp [hl])) (by simp)
      have hA' : ∀ l ∈ a' :: A'', GoodP l := fun l hl => hA l (by simp [hl])
      have hmid : matchAt (joinNl (ind3L a' :: List.map ind3L A'')
          ++ '\n' :: Y) = none :=
        matchAt_seq3 a' A'' Y (hA' a' (by simp))
          (fun l hl => hA' l (by simp [hl]))
      have ih'' : scan (joinNl (ind3L a' :: List.map ind3L A'') ++ '\n' :: Y)
          = joinNl (ind3L a' :: List.map ind3L A'')
            ++ '\n' :: (rep ++ scan (Y.drop n)) := ih'
      rw [List.map_cons, List.map_cons, joinNl_cons₂_append,
        scan_append_no_nl _ _ hnl3, scan_nl_none _ hmid, ih'',
        joinNl_cons₂_append]

theorem pass2_of_none (s : List Char) (h : matchAt s = none) :
    pass2 s = scan s := by
  unfold pass2
  rw [h]

theorem pass2_of_some (s rep : List Char) (n : Nat)
    (h : matchAt s = some (rep, n)) : pass2 s = rep ++ scan (s.drop n) := by
  unfold pass2
  rw [h]

/-- Pass 2 on the once-indented form of a good transcript with exactly one
`User:` line: it inserts the directive block exactly at that line. -/
theorem pass2_first (A B : List (List Char)) (rk : List Char)
    (hA : ∀ l ∈ A, GoodP l) (hB : ∀ l ∈ B, GoodP l) (hrk : '\n' ∉ rk) :
    pass2 (joinNl (A.map ind3L ++ ("   User:".data ++ rk) :: B.map ind3L))
      = joinNl (A.map ind3L
          ++ [] :: [] :: ".. chat::".data :: [] :: ("   User:".data ++ rk)
            :: B.map ind3L) := by
  obtain ⟨w, hYw, hwscan⟩ :
      ∃ w, joinNl (("   User:".data ++ rk) :: B.map ind3L)
          = "   User:".data ++ w ∧ scan w = w := by
    cases B with
    | nil =>
      exact ⟨rk, rfl, scan_no_nl rk hrk⟩
    | cons b B' =>
      refine ⟨rk ++ '\n' :: joinNl ((b :: B').map ind3L), ?_, ?_⟩
      · rw [show (b :: B').map ind3L = ind3L b :: B'.map ind3L from rfl,
          joinNl_cons₂ _ (ind3L b) (B'.map ind3L)]
        simp [List.append_assoc]
      · have hsg := scan_good3_join (b :: B') hB
        rw [scan_append_no_nl _ _ hrk, scan_nl_none _ hsg.1, hsg.2]
  have hmY : matchAt (joinNl (("   User:".data ++ rk) :: B.map ind3L))
      = some (chatRep, 8) := by
    rw [hYw]
    exact matchAt_user w
  have hdropY : (joinNl (("   User:".data ++ rk) :: B.map ind3L)).drop 8
      = w := by
    rw [hYw]
    rfl
  have hmidtext : joinNl ([] :: [] :: ".. chat::".data :: []
        :: ("   User:".data ++ rk) :: B.map ind3L)
      = chatRep ++ w := by
    rw [joinNl_cons₂, joinNl_cons₂, joinNl_cons₂, joinNl_cons₂, hYw]
    rfl
  cases A with
  | nil =>
    rw [List.map_nil, List.nil_append, List.nil_append,
      pass2_of_some _ chatRep 8 hmY, hdropY, hwscan, hmidtext]
  | cons a A' =>
    have hAne : (a :: A').map ind3L ≠ [] := by simp
    have hsplit : joinNl ((a :: A').map ind3L
          ++ ("   User:".data ++ rk) :: B.map ind3L)
        = joinNl ((a :: A').map ind3L)
          ++ '\n' :: joinNl (("   User:".data ++ rk) :: B.map ind3L) :=
      joinNl_append _ _ hAne (by simp)
    have hsplit2 : joinNl ((a :: A').map ind3L
          ++ [] :: [] :: ".. chat::".data :: []
            :: ("   User:".data ++ rk) :: B.map ind3L)
        = joinNl ((a :: A').map ind3L)
          ++ '\n' :: joinNl ([] :: [] :: ".. chat::".data :: []
            :: ("   User:".data ++ rk) :: B.map ind3L) :=
      joinNl_append _ _ hAne (by simp)
    rw [hsplit, hsplit2, hmidtext,
      pass2_of_none _ (matchAt_seq3 a A' _ (hA a (by simp))
        (fun l hl => hA l (by simp [hl]))),
      scan_seek3 (a :: A') hA (by simp) _ chatRep 8 hmY, hdropY, hwscan]

/-! ### Second application: the twice-indented text is match-free -/

theorem nl_not_mem_ind6 (l : List Char) (hl : GoodP l) : '\n' ∉ ind6L l := by
  obtain ⟨c, r, rfl, _, _, _, h4, _⟩ := hl
  intro hmem
  rcases List.mem_append.1 hmem with h | h
  · exact absurd h (by decide)
  · exact h4 h

theorem matchAt_ind6_last (l : List Char) (hl : GoodP l) :
    matchAt (ind6L l) = none := by
  obtain ⟨c, r, rfl, _, _, _, h4, _⟩ := hl
  rw [show ind6L (c :: r)
      = ' ' :: ' ' :: ' ' :: ("   ".data ++ (c :: r)) from rfl]
  apply matchAt_last_none
  · intro hmem
    rcases List.mem_append.1 hmem with h | h
    · exact absurd h (by decide)
    · exact h4 h
  · rw [show "   ".data ++ (c :: r) = ' ' :: (' ' :: ' ' :: c :: r) from rfl]
    exact take5_ne_head ' ' _ (by decide)

theorem matchAt_ind6_cont (l z : List Char) (hl : GoodP l)
    (hterm : g2Term z = none) : matchAt (ind6L l ++ '\n' :: z) = none := by
  obtain ⟨c, r, rfl, _, _, _, h4, _⟩ := hl
  rw [show ind6L (c :: r) ++ '\n' :: z
      = ' ' :: ' ' :: ' ' :: (("   ".data ++ (c :: r)) ++ '\n' :: z)
      from rfl]
  apply matchAt_heading_none _ _ _ _ hterm
  · intro hmem
    rcases List.mem_append.1 hmem with h | h
    · exact absurd h (by decide)
    · exact h4 h
  · rw [show ("   ".data ++ (c :: r)) ++ '\n' :: z
        = ' ' :: (' ' :: ' ' :: c :: (r ++ '\n' :: z)) from rfl]
    exact take5_ne_head ' ' _ (by decide)

/-- The terminal search fails when the next nonblank content is a
twice-indented good line. -/
theorem g2Term_good6 (l : List Char) (hl : GoodP l) :
    g2Term (ind6L l) = none
    ∧ ∀ w2, g2Term (ind6L l ++ '\n' :: w2) = none := by
  obtain ⟨c, r, rfl, h1, _, _, _h4, h5⟩ := hl
  constructor
  · rw [show ind6L (c :: r)
        = ' ' :: ' ' :: ' ' :: ' ' :: ' ' :: ' ' :: c :: r from rfl]
    apply g2Term_six c r h1
    exact take_ne_of_not_isPre' "User:".data (c :: r) h5
  · intro w2
    rw [show ind6L (c :: r) ++ '\n' :: w2
        = ' ' :: ' ' :: ' ' :: ' ' :: ' ' :: ' ' :: c :: (r ++ '\n' :: w2)
        from rfl]
    apply g2Term_six c _ h1
    rw [show c :: (r ++ '\n' :: w2) = (c :: r) ++ '\n' :: w2 from rfl]
    exact take_ne_of_not_isPre "User:".data (c :: r) w2 h5 (by decide)

/-- The twice-indented good lines of a transcript suffix generate no match,
scan to themselves, and defeat any terminal search reaching them. -/
theorem scanU_join (B : List (List Char)) (hB : ∀ l ∈ B, GoodP l) :
    matchAt (joinNl (B.map ind6L)) = none
    ∧ scan (joinNl (B.map ind6L)) = joinNl (B.map ind6L)
    ∧ g2Term (joinNl (B.map ind6L)) = none := by
  induction B with
  | nil => exact ⟨matchAt_nil, rfl, g2Term_nil⟩
  | cons b B' ih =>
    have hb := hB b (by simp)
    have hnl6 := nl_not_mem_ind6 b hb
    cases B' with
    | nil =>
      exact ⟨matchAt_ind6_last b hb, scan_no_nl _ hnl6, (g2Term_good6 b hb).1⟩
    | cons b' B'' =>
      have ih' := ih (fun l hl => hB l (by simp [hl]))
      have hjoin : joinNl ((b :: b' :: B'').map ind6L)
          = ind6L b ++ '\n' :: joinNl ((b' :: B'').map ind6L) := by
        simp only [List.map_cons]
        exact joinNl_cons₂ _ _ _
      refine ⟨?_, ?_, ?_⟩
      · rw [hjoin]
        exact matchAt_ind6_cont b _ hb ih'.2.2
      · rw [hjoin, scan_append_no_nl _ _ hnl6, scan_nl_none _ ih'.1, ih'.2.1]
      · rw [hjoin]
        exact (g2Term_good6 b hb).2 _

/-- All facts about the mid-and-suffix text of the twice-indented output:
two blank lines, the indented directive line, a blank line, the
twice-indented `User:` line, then the remaining good lines. -/
theorem scanU_mid (B : List (List Char)) (rk : List Char)
    (hB : ∀ l ∈ B, GoodP l) (hrk : '\n' ∉ rk) :
    matchAt (joinNl ([] :: [] :: "   .. chat::".data :: []
        :: ("      User:".data ++ rk) :: B.map ind6L)) = none
    ∧ scan (joinNl ([] :: [] :: "   .. chat::".data :: []
        :: ("      User:".data ++ rk) :: B.map ind6L))
      = joinNl ([] :: [] :: "   .. chat::".data :: []
        :: ("      User:".data ++ rk) :: B.map ind6L)
    ∧ g2Term (joinNl ([] :: [] :: "   .. chat::".data :: []
        :: ("      User:".data ++ rk) :: B.map ind6L)) = none := by
  have hUnl : '\n' ∉ "      User:".data ++ rk := by
    intro hmem
    rcases List.mem_append.1 hmem with h | h
    · exact absurd h (by decide)
    · exact hrk h
  have hpnl : '\n' ∉ "   User:".data ++ rk := by
    intro hmem
    rcases List.mem_append.1 hmem with h | h
    · exact absurd h (by decide)
    · exact hrk h
  have hm0 : matchAt (joinNl (("      User:".data ++ rk) :: B.map ind6L))
      = none ∧ scan (joinNl (("      User:".data ++ rk) :: B.map ind6L))
      = joinNl (("      User:".data ++ rk) :: B.map ind6L) := by
    cases B with
    | nil =>
      constructor
      · show matchAt ("      User:".data ++ rk) = none
        rw [show "      User:".data ++ rk
            = ' ' :: ' ' :: ' ' :: ("   User:".data ++ rk) from rfl]
        apply matchAt_last_none _ hpnl
        rw [show "   User:".data ++ rk
            = ' ' :: (' ' :: ' ' :: 'U' :: 's' :: 'e' :: 'r' :: ':' :: rk)
            from rfl]
        exact take5_ne_head ' ' _ (by decide)
      · exact scan_no_nl _ hUnl
    | cons b B' =>
      have hsj := scanU_join (b :: B') hB
      have hjoin : joinNl (("      User:".data ++ rk) :: (b :: B').map ind6L)
          = ("      User:".data ++ rk)
            ++ '\n' :: joinNl ((b :: B').map ind6L) := by
        simp only [List.map_cons]
        exact joinNl_cons₂ _ _ _
      constructor
      · rw [hjoin]
        rw [show ("      User:".data ++ rk)
              ++ '\n' :: joinNl ((b :: B').map ind6L)
            = ' ' :: ' ' :: ' ' :: (("   User:".data ++ rk)
              ++ '\n' :: joinNl ((b :: B').map ind6L)) from rfl]
        apply matchAt_heading_none _ _ hpnl _ hsj.2.2
        rw [show ("   User:".data ++ rk) ++ '\n' :: joinNl ((b :: B').map ind6L)
            = ' ' :: (' ' :: ' ' :: 'U' :: 's' :: 'e' :: 'r' :: ':'
              :: (rk ++ '\n' :: joinNl ((b :: B').map ind6L))) from rfl]
        exact take5_ne_head ' ' _ (by decide)
      · rw [hjoin, scan_append_no_nl _ _ hUnl, scan_nl_none _ hsj.1, hsj.2.1]
  have hjoin5 : joinNl ([] :: [] :: "   .. chat::".data :: []
        :: ("      User:".data ++ rk) :: B.map ind6L)
      = '\n' :: '\n' :: ("   .. chat::".data
        ++ '\n' :: '\n' :: joinNl (("      User:".data ++ rk)
          :: B.map ind6L)) := by
    rw [joinNl_cons₂, joinNl_cons₂, joinNl_cons₂, joinNl_cons₂]
    rfl
  have hrest2 : matchAt ("   .. chat::".data
      ++ '\n' :: ('\n' :: joinNl (("      User:".data ++ rk)
        :: B.map ind6L))) = none := by
    rw [show "   .. chat::".data
          ++ '\n' :: ('\n' :: joinNl (("      User:".data ++ rk)
            :: B.map ind6L))
        = ' ' :: ' ' :: ' ' :: '.' :: (". chat::".data
          ++ '\n' :: ('\n' :: joinNl (("      User:".data ++ rk)
            :: B.map ind6L))) from rfl]
    apply matchAt_none_nohead '.' _ (by decide)
    exact take5_ne_head '.' _ (by decide)
  refine ⟨?_, ?_, ?_⟩
  · rw [hjoin5]
    exact matchAt_none_head '\n' _ (by decide)
  · rw [hjoin5]
    rw [scan_nl_none _ (matchAt_none_head '\n' _ (by decide))]
    rw [scan_nl_none _ hrest2]
    rw [scan_append_no_nl _ _ (by decide)]
    rw [scan_nl_none _ (matchAt_none_head '\n' _ (by decide))]
    rw [scan_nl_none _ hm0.1]
    rw [hm0.2]
  · rw [hjoin5]
    exact g2Term_chat _

/-- Walking the twice-indented prefix lines: no match anywhere, scanning is
the identity. -/
theorem scanU_seek (A : List (List Char)) (hA : ∀ l ∈ A, GoodP l)
    (M : List Char) (hmM : matchAt M = none) (hsM : scan M = M)
    (htM : g2Term M = none) :
    matchAt (joinNl (A.map ind6L) ++ '\n' :: M) = none
    ∧ scan (joinNl (A.map ind6L) ++ '\n' :: M)
      = joinNl (A.map ind6L) ++ '\n' :: M := by
  induction A with
  | nil =>
    constructor
    · exact matchAt_none_head '\n' _ (by decide)
    · show scan ('\n' :: M) = '\n' :: M
      rw [scan_nl_none _ hmM, hsM]
  | cons a A' ih =>
    have ha := hA a (by simp)
    have hnl6 := nl_not_mem_ind6 a ha
    have ih' := ih (fun l hl => hA l (by simp [hl]))
    cases A' with
    | nil =>
      constructor
      · exact matchAt_ind6_cont a M ha htM
      · show scan (ind6L a ++ '\n' :: M) = ind6L a ++ '\n' :: M
        rw [scan_append_no_nl _ _ hnl6, scan_nl_none _ hmM, hsM]
    | cons a' A'' =>
      have ha' := hA a' (by simp)
      have hterm' : g2Term (joinNl ((a' :: A'').map ind6L) ++ '\n' :: M)
          = none := by
        cases A'' with
        | nil =>
          show g2Term (ind6L a' ++ '\n' :: M) = none
          exact (g2Term_good6 a' ha').2 M
        | cons a'' A''' =>
          rw [List.map_cons, List.map_cons, joinNl_cons₂_append]
          exact (g2Term_good6 a' ha').2 _
      have hmid : matchAt (joinNl (ind6L a' :: List.map ind6L A'')
          ++ '\n' :: M) = none := ih'.1
      have hsc : scan (joinNl (ind6L a' :: List.map ind6L A'') ++ '\n' :: M)
          = joinNl (ind6L a' :: List.map ind6L A'') ++ '\n' :: M := ih'.2
      have hterm'' : g2Term (joinNl (ind6L a' :: List.map ind6L A'')
          ++ '\n' :: M) = none := hterm'
      constructor
      · rw [List.map_cons, List.map_cons, joinNl_cons₂_append]
        exact matchAt_ind6_cont a _ ha hterm''
      · rw [List.map_cons, List.map_cons, joinNl_cons₂_append,
          scan_append_no_nl _ _ hnl6, scan_nl_none _ hmid, hsc]

/-- Pass 2 is the identity on the twice-indented output of a first
application on a good transcript. -/
theorem pass2_second (A B : List (List Char)) (rk : List Char)
    (hA : ∀ l ∈ A, GoodP l) (hB : ∀ l ∈ B, GoodP l) (hrk : '\n' ∉ rk) :
    pass2 (joinNl (A.map ind6L ++ [] :: [] :: "   .. chat::".data :: []
        :: ("      User:".data ++ rk) :: B.map ind6L))
      = joinNl (A.map ind6L ++ [] :: [] :: "   .. chat::".data :: []
        :: ("      User:".data ++ rk) :: B.map ind6L) := by
  have hM := scanU_mid B rk hB hrk
  cases A with
  | nil =>
    rw [List.map_nil, List.nil_append, pass2_of_none _ hM.1, hM.2.1]
  | cons a A' =>
    have hsplit : joinNl ((a :: A').map ind6L
          ++ [] :: [] :: "   .. chat::".data :: []
            :: ("      User:".data ++ rk) :: B.map ind6L)
        = joinNl ((a :: A').map ind6L)
          ++ '\n' :: joinNl ([] :: [] :: "   .. chat::".data :: []
            :: ("      User:".data ++ rk) :: B.map ind6L) :=
      joinNl_append _ _ (by simp) (by simp)
    have hseek := scanU_seek (a :: A') hA _ hM.1 hM.2.1 hM.2.2
    rw [hsplit, pass2_of_none _ hseek.1, hseek.2]

/-! ### Plumbing for the amended claim C6 -/

theorem map_congr_mem {α β : Type} (l : List α) (f g : α → β)
    (h : ∀ a ∈ l, f a = g a) : l.map f = l.map g := by
  induction l with
  | nil => rfl
  | cons x xs ih =>
    simp only [List.map_cons, h x (by simp),
      ih (fun a ha => h a (by simp [ha]))]

theorem indentLine_good (l : List Char) (hl : GoodP l) :
    indentLine l = ind3L l := by
  obtain ⟨c, r, rfl, h1, -, -, -, -⟩ := hl
  have hany : (c :: r).any (fun c => !(pyspace c)) = true := by
    rw [List.any_cons, h1]
    simp
  unfold indentLine
  rw [if_pos hany]
  rfl

theorem indentLine_ind3 (l : List Char) (hl : GoodP l) :
    indentLine (ind3L l) = ind6L l := by
  obtain ⟨c, r, rfl, h1, -, -, -, -⟩ := hl
  have hany : (ind3L (c :: r)).any (fun c => !(pyspace c)) = true := by
    rw [show ind3L (c :: r) = ' ' :: ' ' :: ' ' :: c :: r from rfl,
      List.any_cons, List.any_cons, List.any_cons, List.any_cons, h1]
    simp
  unfold indentLine
  rw [if_pos hany]
  rfl

theorem no_quote_of_head (c : Char) (r : List Char) (hc : c ≠ '>') :
    ¬((c :: r).take 2 = ['>', ' '] ∧ ':' ∈ (c :: r).drop 2) := by
  rintro ⟨h1, -⟩
  rw [show (c :: r).take 2 = c :: r.take 1 from rfl] at h1
  injection h1 with h1
  exact hc h1

theorem countOccs_chat_pre (x l : List Char) (hx : ∀ a ∈ x, a ≠ '.') :
    countOccs ".. chat::".data (x ++ l) = countOccs ".. chat::".data l := by
  induction x with
  | nil => rfl
  | cons c x' ih =>
    rw [List.cons_append,
      countOccs_cons_ne ".. chat::".data '.' rfl c _ (hx c (by simp)),
      ih (fun a ha => hx a (by simp [ha]))]

theorem sum_countOccs_zero (f : List Char → List Char)
    (L : List (List Char))
    (h : ∀ l ∈ L, countOccs ".. chat::".data (f l) = 0) :
    ((L.map f).map (countOccs ".. chat::".data)).sum = 0 := by
  rw [List.map_map]
  refine List.sum_eq_zero_iff.2 ?_
  intro x hx
  obtain ⟨l, hl, rfl⟩ := List.mem_map.1 hx
  exact h l hl

/-! ### Claim C6 -/

/-- Counterexample to claim C6: the transcript `"# User: hi\nUser: a"` has a
non-strict output containing exactly one `.. chat::` directive, yet applying
the non-strict transform to that output inserts a second one (the heading
group of pass 2 matches the re-indented text again). -/
theorem claim_C6_counterexample :
    transform_examples_to_chat_directives "# User: hi\nUser: a".data false
      = .ok "User: hi\n\n.. chat::\n\n   User: a".data
    ∧ countOccs ".. chat::".data "User: hi\n\n.. chat::\n\n   User: a".data
      = 1
    ∧ transform_examples_to_chat_directives
        "User: hi\n\n.. chat::\n\n   User: a".data false
      = .ok "\n\n.. chat::\n\n   User: hi\n\n   .. chat::\n\n      User: a".data
    ∧ countOccs ".. chat::".data
        "\n\n.. chat::\n\n   User: hi\n\n   .. chat::\n\n      User: a".data
      = 2 :=
  ⟨rfl, rfl, rfl, rfl⟩

/-- Claim C6 as amended: restricted to transcripts whose every line starts
with a character that is neither whitespace nor `'#'` nor `'>'`, with exactly
one line starting with `"User:"`, and that do not already contain the
directive marker — for those, the non-strict output contains exactly one
`.. chat::`, and a second non-strict application still yields exactly one
(no duplicate directive is inserted). -/
theorem claim_C6_amended (s : List Char)
    (hl : ∀ l ∈ splitNl s, l ≠ [] ∧ pyspace l.headI = false
      ∧ l.headI ≠ '#' ∧ l.headI ≠ '>')
    (huser : (splitNl s).countP
      (fun l => decide ("User:".data <+: l)) = 1)
    (hchat : countOccs ".. chat::".data s = 0) :
    ∃ t u : List Char,
      transform_examples_to_chat_directives s false = .ok t
      ∧ countOccs ".. chat::".data t = 1
      ∧ transform_examples_to_chat_directives t false = .ok u
      ∧ countOccs ".. chat::".data u = 1 := by
  obtain ⟨A, Lu, B, hsplit, hpLu, hA0, hB0⟩ := countP_one_split _ _ huser
  have hLu : "User:".data <+: Lu := of_decide_eq_true hpLu
  obtain ⟨rk, hrk_eq⟩ := hLu
  have hnlAll : ∀ l ∈ splitNl s, '\n' ∉ l := mem_splitNl_no_nl s
  have hmemA : ∀ l ∈ A, l ∈ splitNl s := by
    intro l hlm
    rw [hsplit]
    exact List.mem_append.2 (Or.inl hlm)
  have hmemB : ∀ l ∈ B, l ∈ splitNl s := by
    intro l hlm
    rw [hsplit]
    exact List.mem_append.2 (Or.inr (List.mem_cons.2 (Or.inr hlm)))
  have hmemLu : Lu ∈ splitNl s := by
    rw [hsplit]
    exact List.mem_append.2 (Or.inr (List.mem_cons.2 (Or.inl rfl)))
  have hGood : ∀ l ∈ splitNl s, ¬("User:".data <+: l) → GoodP l := by
    intro l hlm hnp
    obtain ⟨hne, h1, h2, h3⟩ := hl l hlm
    cases l with
    | nil => exact absurd rfl hne
    | cons c r =>
      exact ⟨c, r, rfl, h1, h2, h3, hnlAll _ hlm, hnp⟩
  have hGA : ∀ l ∈ A, GoodP l := by
    intro l hlm
    refine hGood l (hmemA l hlm) ?_
    intro hp
    exact (List.countP_eq_zero.1 hA0 l hlm) (decide_eq_true hp)
  have hGB : ∀ l ∈ B, GoodP l := by
    intro l hlm
    refine hGood l (hmemB l hlm) ?_
    intro hp
    exact (List.countP_eq_zero.1 hB0 l hlm) (decide_eq_true hp)
  have hLunl : '\n' ∉ Lu := hnlAll Lu hmemLu
  have hrknl : '\n' ∉ rk := by
    intro h
    rw [← hrk_eq] at hLunl
    exact hLunl (List.mem_append.2 (Or.inr h))
  have hs_join : s = joinNl (A ++ Lu :: B) := by
    rw [← hsplit, joinNl_splitNl]
  have hp1 : pass1 s = s := by
    apply pass1_id_of_lines
    intro l hlm
    obtain ⟨hne, -, -, h3⟩ := hl l hlm
    cases l with
    | nil => exact absurd rfl hne
    | cons c r => exact no_quote_of_head c r h3
  have hmapA : A.map indentLine = A.map ind3L :=
    map_congr_mem A _ _ (fun l hlm => indentLine_good l (hGA l hlm))
  have hmapB : B.map indentLine = B.map ind3L :=
    map_congr_mem B _ _ (fun l hlm => indentLine_good l (hGB l hlm))
  have hindent : indent3 s
      = joinNl (A.map ind3L ++ ("   User:".data ++ rk) :: B.map ind3L) := by
    unfold indent3
    rw [hsplit, List.map_append, List.map_cons, hmapA, hmapB, ← hrk_eq,
      show indentLine ("User:".data ++ rk) = "   User:".data ++ rk from rfl]
  have hT : pass2 (indent3 (pass1 s))
      = joinNl (A.map ind3L ++ [] :: [] :: ".. chat::".data :: []
          :: ("   User:".data ++ rk) :: B.map ind3L) := by
    rw [hp1, hindent]
    exact pass2_first A B rk hGA hGB hrknl
  have htr1 : transform_examples_to_chat_directives s false
      = .ok (joinNl (A.map ind3L ++ [] :: [] :: ".. chat::".data :: []
          :: ("   User:".data ++ rk) :: B.map ind3L)) := by
    rw [transform_false_ok, hT]
  have hcnl : '\n' ∉ ".. chat::".data := by decide
  have hcne : (".. chat::".data : List Char) ≠ [] := by decide
  have hlineszero : ∀ l ∈ splitNl s, countOccs ".. chat::".data l = 0 := by
    intro l hlm
    have hsum := countOccs_join ".. chat::".data hcnl hcne (splitNl s)
    rw [joinNl_splitNl, hchat] at hsum
    exact List.sum_eq_zero_iff.1 hsum.symm _
      (List.mem_map.2 ⟨l, hlm, rfl⟩)
  have hrk0 : countOccs ".. chat::".data rk = 0 := by
    have h0 := hlineszero Lu hmemLu
    rw [← hrk_eq, countOccs_chat_pre "User:".data rk (by decide)] at h0
    exact h0
  have hAsum : ((A.map ind3L).map (countOccs ".. chat::".data)).sum = 0 :=
    sum_countOccs_zero ind3L A (fun l hlm => by
      rw [show ind3L l = "   ".data ++ l from rfl,
        countOccs_chat_pre "   ".data l (by decide)]
      exact hlineszero l (hmemA l hlm))
  have hBsum : ((B.map ind3L).map (countOccs ".. chat::".data)).sum = 0 :=
    sum_countOccs_zero ind3L B (fun l hlm => by
      rw [show ind3L l = "   ".data ++ l from rfl,
        countOccs_chat_pre "   ".data l (by decide)]
      exact hlineszero l (hmemB l hlm))
  have hT1 : countOccs ".. chat::".data
      (joinNl (A.map ind3L ++ [] :: [] :: ".. chat::".data :: []
        :: ("   User:".data ++ rk) :: B.map ind3L)) = 1 := by
    rw [countOccs_join ".. chat::".data hcnl hcne, List.map_append,
      List.sum_append, hAsum, List.map_cons, List.map_cons, List.map_cons,
      List.map_cons, List.map_cons, List.sum_cons, List.sum_cons,
      List.sum_cons, List.sum_cons, List.sum_cons,
      show countOccs ".. chat::".data ([] : List Char) = 0 from rfl,
      show countOccs ".. chat::".data ".. chat::".data = 1 from by decide,
      countOccs_chat_pre "   User:".data rk (by decide), hrk0, hBsum]
    norm_num
  -- second application
  have hU3nl : '\n' ∉ "   User:".data ++ rk := by
    intro h
    rcases List.mem_append.1 h with h | h
    · exact absurd h (by decide)
    · exact hrknl h
  have hTnl : ∀ l ∈ A.map ind3L ++ [] :: [] :: ".. chat::".data :: []
      :: ("   User:".data ++ rk) :: B.map ind3L, '\n' ∉ l := by
    intro l hlm
    rcases List.mem_append.1 hlm with h | h
    · obtain ⟨a, ha, rfl⟩ := List.mem_map.1 h
      exact nl_not_mem_ind3 a (hGA a ha)
    · simp only [List.mem_cons] at h
      rcases h with rfl | rfl | rfl | rfl | rfl | h
      · simp
      · simp
      · decide
      · simp
      · exact hU3nl
      · obtain ⟨b, hb, rfl⟩ := List.mem_map.1 h
        exact nl_not_mem_ind3 b (hGB b hb)
  have hsplitT : splitNl (joinNl (A.map ind3L ++ [] :: []
        :: ".. chat::".data :: [] :: ("   User:".data ++ rk)
        :: B.map ind3L))
      = A.map ind3L ++ [] :: [] :: ".. chat::".data :: []
        :: ("   User:".data ++ rk) :: B.map ind3L :=
    splitNl_joinNl _ hTnl (by simp)
  have hp1T : pass1 (joinNl (A.map ind3L ++ [] :: [] :: ".. chat::".data
        :: [] :: ("   User:".data ++ rk) :: B.map ind3L))
      = joinNl (A.map ind3L ++ [] :: [] :: ".. chat::".data :: []
        :: ("   User:".data ++ rk) :: B.map ind3L) := by
    apply pass1_id_of_lines
    rw [hsplitT]
    intro l hlm
    rcases List.mem_append.1 hlm with h | h
    · obtain ⟨a, ha, rfl⟩ := List.mem_map.1 h
      rw [show ind3L a = ' ' :: (' ' :: ' ' :: a) from rfl]
      exact no_quote_of_head ' ' _ (by decide)
    · simp only [List.mem_cons] at h
      rcases h with rfl | rfl | rfl | rfl | rfl | h
      · rintro ⟨h1, -⟩
        exact absurd h1 (by decide)
      · rintro ⟨h1, -⟩
        exact absurd h1 (by decide)
      · exact no_quote_of_head '.' _ (by decide)
      · rintro ⟨h1, -⟩
        exact absurd h1 (by decide)
      · exact no_quote_of_head ' ' _ (by decide)
      · obtain ⟨b, hb, rfl⟩ := List.mem_map.1 h
        rw [show ind3L b = ' ' :: (' ' :: ' ' :: b) from rfl]
        exact no_quote_of_head ' ' _ (by decide)
  have hindT : indent3 (joinNl (A.map ind3L ++ [] :: []
        :: ".. chat::".data :: [] :: ("   User:".data ++ rk)
        :: B.map ind3L))
      = joinNl (A.map ind6L ++ [] :: [] :: "   .. chat::".data :: []
        :: ("      User:".data ++ rk) :: B.map ind6L) := by
    unfold indent3
    rw [hsplitT, List.map_append, List.map_cons, List.map_cons,
      List.map_cons, List.map_cons, List.map_cons, List.map_map,
      List.map_map,
      map_congr_mem A (indentLine ∘ ind3L) ind6L
        (fun l hlm => indentLine_ind3 l (hGA l hlm)),
      map_congr_mem B (indentLine ∘ ind3L) ind6L
        (fun l hlm => indentLine_ind3 l (hGB l hlm)),
      show indentLine ([] : List Char) = [] from rfl,
      show indentLine ".. chat::".data = "   .. chat::".data from rfl,
      show indentLine ("   User:".data ++ rk)
        = "      User:".data ++ rk from rfl]
  have htr2 : transform_examples_to_chat_directives
      (joinNl (A.map ind3L ++ [] :: [] :: ".. chat::".data :: []
        :: ("   User:".data ++ rk) :: B.map ind3L)) false
      = .ok (joinNl (A.map ind6L ++ [] :: [] :: "   .. chat::".data :: []
        :: ("      User:".data ++ rk) :: B.map ind6L)) := by
    rw [transform_false_ok, hp1T, hindT, pass2_second A B rk hGA hGB hrknl]
  have hA6sum : ((A.map ind6L).map (countOccs ".. chat::".data)).sum = 0 :=
    sum_countOccs_zero ind6L A (fun l hlm => by
      rw [show ind6L l = "      ".data ++ l from rfl,
        countOccs_chat_pre "      ".data l (by decide)]
      exact hlineszero l (hmemA l hlm))
  have hB6sum : ((B.map ind6L).map (countOccs ".. chat::".data)).sum = 0 :=
    sum_countOccs_zero ind6L B (fun l hlm => by
      rw [show ind6L l = "      ".data ++ l from rfl,
        countOccs_chat_pre "      ".data l (by decide)]
      exact hlineszero l (hmemB l hlm))
  have hU1 : countOccs ".. chat::".data
      (joinNl (A.map ind6L ++ [] :: [] :: "   .. chat::".data :: []
        :: ("      User:".data ++ rk) :: B.map ind6L)) = 1 := by
    rw [countOccs_join ".. chat::".data hcnl hcne, List.map_append,
      List.sum_append, hA6sum, List.map_cons, List.map_cons, List.map_cons,
      List.map_cons, List.map_cons, List.sum_cons, List.sum_cons,
      List.sum_cons, List.sum_cons, List.sum_cons,
      show countOccs ".. chat::".data ([] : List Char) = 0 from rfl,
      show countOccs ".. chat::".data "   .. chat::".data = 1 from by decide,
      countOccs_chat_pre "      User:".data rk (by decide), hrk0, hB6sum]
    norm_num
  exact ⟨_, _, htr1, hT1, htr2, hU1⟩

/-- Witness for the amended claim C6 at a concrete three-line transcript. -/
theorem claim_C6_amended_witness :
    ∃ t u : List Char,
      transform_examples_to_chat_directives
        "Intro\nUser: hi\nAssistant: yo".data false = .ok t
      ∧ countOccs ".. chat::".data t = 1
      ∧ transform_examples_to_chat_directives t false = .ok u
      ∧ countOccs ".. chat::".data u = 1 :=
  claim_C6_amended "Intro\nUser: hi\nAssistant: yo".data (by decide)
    (by decide) (by decide)

end Gptme
